import Mathlib

/-!
Shallow embedding of the HBC_Records viewer core: geometry normalization of
per-line OCR bounding boxes, the hit-testing region index, the highlight
state machine, suggestion ranking, page-key ordering and the contributor
leaderboard aggregation.  Numbers are modelled by exact rationals (all JS
numbers appearing here are finite; the source guards non-finite inputs away
before any of the modelled computations), timestamps by integers (the epoch
milliseconds produced by Date.getTime), and JS Array.prototype.sort by the
stable List.mergeSort.
-/

namespace HBC

/-! ## Region index: hit boxes and pickBoxAt -/

/-- An entry of the nextHitBoxes array: { uid, x, y, w, h, area } in
unit-square page coordinates. -/
structure HitBox where
  uid : String
  x : ℚ
  y : ℚ
  w : ℚ
  h : ℚ
  area : ℚ
deriving DecidableEq, Repr

/-- The containment test of the pickBoxAt loop body:
u >= b.x && u <= b.x + b.w && v >= b.y && v <= b.y + b.h (inclusive bounds). -/
def containsPt (b : HitBox) (u v : ℚ) : Bool :=
  b.x ≤ u && u ≤ b.x + b.w && b.y ≤ v && v ≤ b.y + b.h

/-- pickBoxAt(u, v): linear scan over hitBoxes, returning the first box whose
rectangle contains the point, else null (here: none). -/
def pickBoxAt (hitBoxes : List HitBox) (u v : ℚ) : Option HitBox :=
  hitBoxes.find? (fun b => containsPt b u v)

/-- nextHitBoxes.sort((a, b) => a.area - b.area): stable ascending-area sort. -/
def sortHitBoxes (l : List HitBox) : List HitBox :=
  l.mergeSort (fun a b => a.area ≤ b.area)

/-! ## Geometry normalizer -/

/-- A normalized box as computed in the page-render loop. -/
structure NormalizedBox where
  x : ℚ
  y : ℚ
  w : ℚ
  h : ℚ
  area : ℚ
deriving DecidableEq, Repr

/-- Math.min(1, Math.max(0, q)). -/
def clamp01 (q : ℚ) : ℚ := min 1 (max 0 q)

/-- The normalization steps of the page-render loop: divide x coordinates by
the page width and y coordinates by the page height, clamp each of the four
values to [0,1], swap an inverted corner pair, then
w = Math.max(0, x2n - x1n), h = Math.max(0, y2n - y1n), area = w * h. -/
def normalizeBox (x1p y1p x2p y2p pageW pageH : ℚ) : NormalizedBox :=
  let x1n := clamp01 (x1p / pageW)
  let x2n := clamp01 (x2p / pageW)
  let y1n := clamp01 (y1p / pageH)
  let y2n := clamp01 (y2p / pageH)
  let xlo := if x2n < x1n then x2n else x1n
  let xhi := if x2n < x1n then x1n else x2n
  let ylo := if y2n < y1n then y2n else y1n
  let yhi := if y2n < y1n then y1n else y2n
  let w := max 0 (xhi - xlo)
  let h := max 0 (yhi - ylo)
  { x := xlo, y := ylo, w := w, h := h, area := w * h }

/-- The retention decision of the page-render loop, in source order:
skip if w <= 0 or h <= 0; skip if h > 0.20; skip if area > 0.25;
skip if w > 0.98 && h > 0.50; skip if w > 0.95 && h > 0.95;
skip if w > 0.999 || h > 0.999; otherwise keep. -/
def keepBox (w h area : ℚ) : Bool :=
  if w ≤ 0 ∨ h ≤ 0 then false
  else if h > (0.20 : ℚ) then false
  else if area > (0.25 : ℚ) then false
  else if w > (0.98 : ℚ) ∧ h > (0.50 : ℚ) then false
  else if w > (0.95 : ℚ) ∧ h > (0.95 : ℚ) then false
  else if w > (0.999 : ℚ) ∨ h > (0.999 : ℚ) then false
  else true

/-- A diagnostic record: the only one the page-render loop can emit is the
development-mode console.warn("Large bbox ...", { uid, ... }). -/
structure Diag where
  uid : String
deriving DecidableEq, Repr

/-- One iteration of the page-render normalization loop for a single line:
returns the hit box contributed by the line (none when the line is skipped)
together with the list of diagnostic records emitted while processing it.
The dev flag models process.env.NODE_ENV !== "production". -/
def processLine (dev : Bool) (uid : String) (bbox : ℚ × ℚ × ℚ × ℚ)
    (pageW pageH : ℚ) : Option NormalizedBox × List Diag :=
  if pageW ≤ 0 ∨ pageH ≤ 0 then (none, [])
  else
    let nb := normalizeBox bbox.1 bbox.2.1 bbox.2.2.1 bbox.2.2.2 pageW pageH
    if keepBox nb.w nb.h nb.area then
      (some nb, if dev ∧ (nb.h > (0.08 : ℚ) ∨ nb.area > (0.08 : ℚ)) then [⟨uid⟩] else [])
    else (none, [])

/-! ## Transcript pane -/

/-- A line of the page JSON. -/
structure SrcLine where
  transcription : String
  bbox : ℚ × ℚ × ℚ × ℚ
deriving DecidableEq, Repr

/-- getAllLinesForPage: flatten paragraphs into (uid, line) pairs with
uid = `${pIdx}-${lIdx}`.  The transcript pane renders exactly this list. -/
def getAllLinesForPage (paragraphs : List (List SrcLine)) : List (String × SrcLine) :=
  paragraphs.enum.flatMap (fun pi =>
    pi.2.enum.map (fun li => (toString pi.1 ++ "-" ++ toString li.1, li.2)))

/-! ## Suggestion ranking -/

/-- A suggestion row as loaded from the store (vote_count may be absent,
read with ?? 0; created_at is the Date.getTime value of the timestamp). -/
structure SuggestionRow where
  id : String
  uid : String
  suggested_text : String
  user_id : String
  created_at : ℤ
  vote_count : Option ℤ
deriving DecidableEq, Repr

/-- The "top" comparator of getSortedSuggestions as a stable-sort ordering:
a may precede b iff a has strictly more votes, or equal votes and a is at
least as new (comparator (a,b) => vb - va, tie (a,b) => tb - ta). -/
def topLe (a b : SuggestionRow) : Bool :=
  let va := a.vote_count.getD 0
  let vb := b.vote_count.getD 0
  if va ≠ vb then vb < va else b.created_at ≤ a.created_at

/-- The "newest" comparator: created_at descending, ignoring votes. -/
def newestLe (a b : SuggestionRow) : Bool :=
  b.created_at ≤ a.created_at

inductive SortMode where
  | top
  | newest
deriving DecidableEq, Repr

/-- getSortedSuggestions: copy the list and sort it by the selected mode. -/
def getSortedSuggestions (mode : SortMode) (arr : List SuggestionRow) :
    List SuggestionRow :=
  match mode with
  | .newest => arr.mergeSort newestLe
  | .top => arr.mergeSort topLe

/-! ## Leaderboard aggregation -/

/-- Model of the JavaScript String.prototype.trim used on username
snapshots: strip leading and trailing whitespace. -/
def jsTrim (s : String) : String :=
  ⟨((s.data.dropWhile Char.isWhitespace).reverse.dropWhile Char.isWhitespace).reverse⟩

/-- A row of the suggestion_votes select
"vote, suggestion:suggestions(user_id, author_username)"; suggestion_id is
the column the vote row keys on but is not part of the select and is never
read by the aggregation. -/
structure VoteRow where
  vote : ℤ
  suggestion_id : String
  author_id : String
  author_username : Option String
deriving DecidableEq, Repr

/-- An entry of the totals record: totals[uid] = { upvotes, username }. -/
structure Total where
  user_id : String
  upvotes : ℕ
  username : String
deriving DecidableEq, Repr

/-- Record update totals[uid]: creating { upvotes: 0, username: snap } when
absent, then upvotes += 1, then backfilling an empty username from a
non-empty snapshot. -/
def bumpTotals : List Total → String → String → List Total
  | [], uid, snap => [⟨uid, 1, snap⟩]
  | t :: ts, uid, snap =>
    if t.user_id = uid then
      { t with
        upvotes := t.upvotes + 1,
        username := if t.username = "" ∧ snap ≠ "" then snap else t.username } :: ts
    else t :: bumpTotals ts uid snap

/-- One iteration of the loadLeaderboard accumulation loop:
skip rows whose vote is not exactly 1, skip rows with an empty author id,
otherwise bump the author's total with the trimmed username snapshot. -/
def computeTotalsStep (totals : List Total) (row : VoteRow) : List Total :=
  if row.vote ≠ 1 then totals
  else if row.author_id = "" then totals
  else bumpTotals totals row.author_id (jsTrim (row.author_username.getD ""))

/-- The totals record of loadLeaderboard, in insertion order. -/
def computeTotals (rows : List VoteRow) : List Total :=
  rows.foldl computeTotalsStep []

/-- Object.entries(totals) sorted by (a, b) => b.upvotes - a.upvotes and
sliced to the first 10 entries. -/
def leaderboardBase (rows : List VoteRow) : List Total :=
  ((computeTotals rows).mergeSort (fun a b => b.upvotes ≤ a.upvotes)).take 10

/-- Lookup in the totals association list. -/
def lookupTotal : List Total → String → Option Total
  | [], _ => none
  | t :: ts, a => if t.user_id = a then some t else lookupTotal ts a

/-- The upvote count recorded for an author (0 when the author has no entry). -/
def upvotesOf (ts : List Total) (a : String) : ℕ :=
  match lookupTotal ts a with
  | some t => t.upvotes
  | none => 0

/-- The number of vote rows with value exactly 1 whose suggestion author is a. -/
def countUpvotes (rows : List VoteRow) (a : String) : ℕ :=
  rows.countP (fun r => decide (r.vote = 1 ∧ r.author_id = a))

/-! ## Leaderboard username enrichment -/

/-- byId lookup over the profiles result: the last profile row with this id,
a non-empty id and a non-empty trimmed username wins; otherwise the empty
string (a missing record entry is falsy). -/
def byIdLookup (profs : List (String × Option String)) (id : String) : String :=
  profs.foldl (fun acc p =>
    let uname := jsTrim (p.2.getD "")
    if p.1 ≠ "" ∧ uname ≠ "" ∧ p.1 = id then uname else acc) ""

/-- The deterministic fallback display name: "user:" + user_id.slice(0, 8). -/
def fallbackName (user_id : String) : String := "user:" ++ user_id.take 8

/-- The username enrichment of loadLeaderboard applied to one leaderboard row:
when the profiles fetch succeeded (profs = some ps), username becomes
byId[user_id] || username || fallback; afterwards, unconditionally,
username || fallback.  profs = none models a failed profiles fetch. -/
def enrichRow (profs : Option (List (String × Option String))) (r : Total) : Total :=
  let r1 :=
    match profs with
    | some ps =>
      let live := byIdLookup ps r.user_id
      { r with
        username :=
          if live ≠ "" then live
          else if r.username ≠ "" then r.username
          else fallbackName r.user_id }
    | none => r
  { r1 with username := if r1.username ≠ "" then r1.username else fallbackName r1.user_id }

/-- loadLeaderboard: aggregate, rank, cut to 10, then enrich display names. -/
def loadLeaderboard (profs : Option (List (String × Option String)))
    (rows : List VoteRow) : List Total :=
  (leaderboardBase rows).map (enrichRow profs)

/-! ## Page keys -/

/-- The numeric value of a digit string (parseInt on a [0-9]+ match). -/
def digitsVal (cs : List Char) : ℕ :=
  cs.foldl (fun n c => n * 10 + (c.toNat - '0'.toNat)) 0

/-- pageKeyToNumber: the regex match /_page_(\d+)$/ succeeds exactly when the
key ends in a non-empty run of digits immediately preceded by "_page_";
it then yields the parsed value of that trailing digit run, else null. -/
def pageKeyToNumber (s : String) : Option ℕ :=
  let rev := s.data.reverse
  let ds := rev.takeWhile Char.isDigit
  if ds.isEmpty then none
  else if ("_page_".data.reverse).isPrefixOf (rev.drop ds.length) then
    some (digitsVal ds.reverse)
  else none

/-- The numeric sort key used by the page-key sort: pageKeyToNumber(k) ?? 0. -/
def pageKeyOrd (k : String) : ℕ := (pageKeyToNumber k).getD 0

/-- Object.keys(doc).sort((a, b) => (pageKeyToNumber(a) ?? 0) - (pageKeyToNumber(b) ?? 0)). -/
def sortPageKeys (keys : List String) : List String :=
  keys.mergeSort (fun a b => pageKeyOrd a ≤ pageKeyOrd b)

/-- The docKeyByNum record: for (k of keys) if pageKeyToNumber(k) != null
then docKeyByNum[n] = k (later keys overwrite).  This map is the only way a
doc key enters numeric navigation when the PDF is loaded. -/
def lastKeyWithNum (keys : List String) (n : ℕ) : Option String :=
  keys.foldl (fun acc k => if pageKeyToNumber k = some n then some k else acc) none

/-! ## Highlight state machine -/

inductive Side where
  | left
  | right
deriving DecidableEq, Repr

/-- An activeBox / boxByUidRef entry: { x, y, w, h }. -/
structure Box4 where
  x : ℚ
  y : ℚ
  w : ℚ
  h : ℚ
deriving DecidableEq, Repr

/-- The highlight-relevant React state: activeSource / activeId / activeBox /
collapseSuggestions / collapsedUid / openSuggestUid.  collapsedUid is the
per-uid collapsed flag with missing entries read as false (!!prev[uid]). -/
structure ViewState where
  activeSource : Option Side
  activeId : Option String
  activeBox : Option Box4
  collapseSuggestions : Bool
  collapsedUid : String → Bool
  openSuggestUid : Option String

/-- onHitSvgClick, after the dragging / missing-transcription / degenerate-rect
guards: clamp the pointer to [0,1]^2, hit-test, and on a hit set
activeSource = "left", activeId = uid, activeBox = boxByUid[uid],
collapseSuggestions = false, openSuggestUid = null, and update the per-uid
collapsed flag: to false when a different uid was active, toggled when the
same uid was clicked again. -/
def onHitSvgClick (hitBoxes : List HitBox) (boxByUid : String → Option Box4)
    (s : ViewState) (u v : ℚ) : ViewState :=
  let uu := min 1 (max 0 u)
  let vv := min 1 (max 0 v)
  match pickBoxAt hitBoxes uu vv with
  | none => s
  | some picked =>
    let uid := picked.uid
    let wasSame := s.activeId = some uid
    { s with
      activeSource := some .left
      activeId := some uid
      activeBox := boxByUid uid
      collapseSuggestions := false
      collapsedUid := fun k =>
        if k = uid then (if wasSame then !(s.collapsedUid uid) else false)
        else s.collapsedUid k
      openSuggestUid := none }

/-- The frame-coalesced body of onHitSvgMouseMove: clamp the latest pointer
position, hit-test, return unchanged on a miss or when the same uid is
already active from the page side, otherwise highlight the hit line. -/
def onHitSvgMouseMove (hitBoxes : List HitBox) (boxByUid : String → Option Box4)
    (s : ViewState) (u v : ℚ) : ViewState :=
  let uu := min 1 (max 0 u)
  let vv := min 1 (max 0 v)
  match pickBoxAt hitBoxes uu vv with
  | none => s
  | some picked =>
    if s.activeId = some picked.uid ∧ s.activeSource = some .left then s
    else
      { s with
        activeSource := some .left
        activeId := some picked.uid
        activeBox := boxByUid picked.uid }

/-- onHitSvgMouseLeave: reset activeSource, activeId and activeBox. -/
def onHitSvgMouseLeave (s : ViewState) : ViewState :=
  { s with activeSource := none, activeId := none, activeBox := none }

end HBC

namespace HBC

/-! ## C1: pickBoxAt on an ascending-area list -/

theorem pickBoxAt_min_area : ∀ {l : List HitBox} {u v : ℚ} {b : HitBox},
    l.Pairwise (fun a c => a.area ≤ c.area) →
    pickBoxAt l u v = some b →
    ∀ b' ∈ l, containsPt b' u v = true → b.area ≤ b'.area := by
  intro l
  induction l with
  | nil => intro u v b _ h; simp [pickBoxAt] at h
  | cons a t ih =>
    intro u v b hp hf b' hb' hc
    rw [pickBoxAt, List.find?_cons] at hf
    by_cases ha : containsPt a u v = true
    · rw [ha] at hf
      cases hf
      rcases List.mem_cons.mp hb' with h1 | h1
      · subst h1; exact le_refl _
      · exact (List.pairwise_cons.mp hp).1 b' h1
    · rw [Bool.not_eq_true] at ha
      rw [ha] at hf
      rcases List.mem_cons.mp hb' with h1 | h1
      · subst h1; simp [hc] at ha
      · exact ih (List.pairwise_cons.mp hp).2 hf b' h1 hc

/-- C1: for a hit-box list sorted ascending by area, pickBoxAt returns the
first (hence area-minimal) box whose rectangle contains the point with
inclusive bounds, null when no box contains it; with two overlapping boxes
of areas a1 < a2 both containing the point, the returned box has area at
most a1 and is never the larger box. -/
theorem pickBoxAt_first_match_spec (l : List HitBox) (u v : ℚ)
    (hs : l.Pairwise (fun a c => a.area ≤ c.area)) :
    (pickBoxAt l u v = none ↔ ∀ b ∈ l, ¬ containsPt b u v = true) ∧
    (∀ b, pickBoxAt l u v = some b → b ∈ l ∧ containsPt b u v = true ∧
      ∀ b' ∈ l, containsPt b' u v = true → b.area ≤ b'.area) ∧
    (∀ b1 b2, b1 ∈ l → b2 ∈ l → b1.area < b2.area →
      containsPt b1 u v = true → containsPt b2 u v = true →
      ∃ b, pickBoxAt l u v = some b ∧ containsPt b u v = true ∧
        b.area ≤ b1.area ∧ b ≠ b2) := by
  refine ⟨?_, ?_, ?_⟩
  · rw [pickBoxAt]
    exact List.find?_eq_none
  · intro b hf
    have hf' : l.find? (fun c => containsPt c u v) = some b := hf
    have hc := List.find?_some hf'
    exact ⟨List.mem_of_find?_eq_some hf', by simpa using hc,
      pickBoxAt_min_area hs hf⟩
  · intro b1 b2 h1 h2 harea hc1 hc2
    cases hpick : pickBoxAt l u v with
    | none =>
      have hpick' : l.find? (fun c => containsPt c u v) = none := hpick
      exact absurd hc1 (List.find?_eq_none.mp hpick' b1 h1)
    | some b =>
      have hpick' : l.find? (fun c => containsPt c u v) = some b := hpick
      have hle := pickBoxAt_min_area hs hpick b1 h1 hc1
      have hcb := List.find?_some hpick'
      refine ⟨b, rfl, by simpa using hcb, hle, ?_⟩
      intro hbb
      subst hbb
      exact absurd harea (not_lt.mpr hle)

/-- C1 witness: two overlapping sorted boxes both containing (1/4, 1/20);
the smaller one is picked. -/
theorem pickBoxAt_first_match_spec_witness :
    (([⟨"s", 0, 0, 1/2, 1/10, 1/20⟩, ⟨"l", 0, 0, 1, 1, 1⟩] : List HitBox).Pairwise
      (fun a c => a.area ≤ c.area)) ∧
    (∃ b, pickBoxAt [⟨"s", 0, 0, 1/2, 1/10, 1/20⟩, ⟨"l", 0, 0, 1, 1, 1⟩]
        (1/4) (1/20) = some b ∧
      containsPt b (1/4) (1/20) = true ∧ b.area ≤ (1/20 : ℚ) ∧
      b ≠ ⟨"l", 0, 0, 1, 1, 1⟩) := by
  have hp : (([⟨"s", 0, 0, 1/2, 1/10, 1/20⟩, ⟨"l", 0, 0, 1, 1, 1⟩] : List HitBox).Pairwise
      (fun a c => a.area ≤ c.area)) := by
    norm_num [List.pairwise_cons]
  refine ⟨hp, ?_⟩
  exact (pickBoxAt_first_match_spec _ (1/4) (1/20) hp).2.2
    ⟨"s", 0, 0, 1/2, 1/10, 1/20⟩ ⟨"l", 0, 0, 1, 1, 1⟩
    (by simp) (by simp) (by norm_num)
    (by norm_num [containsPt]) (by norm_num [containsPt])

end HBC

namespace HBC

/-! ## C2: normalizer output bounds -/

theorem clamp01_nonneg (q : ℚ) : 0 ≤ clamp01 q :=
  le_min (by norm_num) (le_max_left 0 q)

theorem clamp01_le_one (q : ℚ) : clamp01 q ≤ 1 := min_le_left 1 _

theorem normDim_bounds {a b : ℚ} (ha0 : 0 ≤ a) (ha1 : a ≤ 1) (hb0 : 0 ≤ b)
    (hb1 : b ≤ 1) :
    0 ≤ (if b < a then b else a) ∧
    (if b < a then b else a) +
      max 0 ((if b < a then a else b) - (if b < a then b else a)) ≤ 1 := by
  by_cases h : b < a
  · simp only [if_pos h]
    refine ⟨hb0, ?_⟩
    rcases max_choice 0 (a - b) with hm | hm <;> rw [hm] <;> linarith
  · simp only [if_neg h]
    refine ⟨ha0, ?_⟩
    rcases max_choice 0 (b - a) with hm | hm <;> rw [hm] <;> linarith

/-- C2: for positive page dimensions every box the normalizer produces
satisfies 0 <= x, 0 <= y, x + w <= 1, y + h <= 1; and bbox (100,50,300,90)
on a 1000 x 2000 page normalizes to exactly
{ x: 0.10, y: 0.025, w: 0.20, h: 0.02 } (area 0.004). -/
theorem normalizeBox_bounds (x1p y1p x2p y2p pageW pageH : ℚ)
    (hW : 0 < pageW) (hH : 0 < pageH) :
    (0 ≤ (normalizeBox x1p y1p x2p y2p pageW pageH).x ∧
     0 ≤ (normalizeBox x1p y1p x2p y2p pageW pageH).y ∧
     (normalizeBox x1p y1p x2p y2p pageW pageH).x +
       (normalizeBox x1p y1p x2p y2p pageW pageH).w ≤ 1 ∧
     (normalizeBox x1p y1p x2p y2p pageW pageH).y +
       (normalizeBox x1p y1p x2p y2p pageW pageH).h ≤ 1) ∧
    normalizeBox 100 50 300 90 1000 2000 =
      { x := 0.10, y := 0.025, w := 0.20, h := 0.02, area := 0.004 } := by
  constructor
  · have hx := normDim_bounds (clamp01_nonneg (x1p / pageW)) (clamp01_le_one (x1p / pageW))
      (clamp01_nonneg (x2p / pageW)) (clamp01_le_one (x2p / pageW))
    have hy := normDim_bounds (clamp01_nonneg (y1p / pageH)) (clamp01_le_one (y1p / pageH))
      (clamp01_nonneg (y2p / pageH)) (clamp01_le_one (y2p / pageH))
    refine ⟨?_, ?_, ?_, ?_⟩ <;> simp only [normalizeBox]
    · exact hx.1
    · exact hy.1
    · exact hx.2
    · exact hy.2
  · norm_num [normalizeBox, clamp01]

/-- C2 witness: the bounds at the concrete example input. -/
theorem normalizeBox_bounds_witness :
    (0 < (1000 : ℚ)) ∧ (0 < (2000 : ℚ)) ∧
    (0 ≤ (normalizeBox 100 50 300 90 1000 2000).x ∧
     0 ≤ (normalizeBox 100 50 300 90 1000 2000).y ∧
     (normalizeBox 100 50 300 90 1000 2000).x +
       (normalizeBox 100 50 300 90 1000 2000).w ≤ 1 ∧
     (normalizeBox 100 50 300 90 1000 2000).y +
       (normalizeBox 100 50 300 90 1000 2000).h ≤ 1) :=
  ⟨by norm_num, by norm_num,
    (normalizeBox_bounds 100 50 300 90 1000 2000 (by norm_num) (by norm_num)).1⟩

end HBC

namespace HBC

/-! ## C3: heuristic rejection filters -/

theorem keepBox_eq_false_iff (w h area : ℚ) (hw : 0 < w) (hh : 0 < h) :
    keepBox w h area = true ↔
      ¬(h > (0.20 : ℚ) ∨ area > (0.25 : ℚ) ∨
        (w > (0.98 : ℚ) ∧ h > (0.50 : ℚ)) ∨
        (w > (0.95 : ℚ) ∧ h > (0.95 : ℚ)) ∨
        w > (0.999 : ℚ) ∨ h > (0.999 : ℚ)) := by
  have h0 : ¬(w ≤ 0 ∨ h ≤ 0) := by push_neg; exact ⟨hw, hh⟩
  rw [keepBox, if_neg h0]
  by_cases h1 : h > (0.20 : ℚ)
  · rw [if_pos h1]
    exact iff_of_false (by simp) (not_not_intro (Or.inl h1))
  · rw [if_neg h1]
    by_cases h2 : area > (0.25 : ℚ)
    · rw [if_pos h2]
      exact iff_of_false (by simp) (not_not_intro (Or.inr (Or.inl h2)))
    · rw [if_neg h2]
      by_cases h3 : w > (0.98 : ℚ) ∧ h > (0.50 : ℚ)
      · rw [if_pos h3]
        exact iff_of_false (by simp) (not_not_intro (Or.inr (Or.inr (Or.inl h3))))
      · rw [if_neg h3]
        by_cases h4 : w > (0.95 : ℚ) ∧ h > (0.95 : ℚ)
        · rw [if_pos h4]
          exact iff_of_false (by simp)
            (not_not_intro (Or.inr (Or.inr (Or.inr (Or.inl h4)))))
        · rw [if_neg h4]
          by_cases h5 : w > (0.999 : ℚ) ∨ h > (0.999 : ℚ)
          · rw [if_pos h5]
            exact iff_of_false (by simp)
              (not_not_intro (Or.inr (Or.inr (Or.inr (Or.inr h5)))))
          · rw [if_neg h5]
            refine iff_of_true rfl ?_
            intro hp
            rcases hp with hp | hp | hp | hp | hp | hp
            · exact h1 hp
            · exact h2 hp
            · exact h3 hp
            · exact h4 hp
            · exact h5 (Or.inl hp)
            · exact h5 (Or.inr hp)

theorem processLine_fst (dev : Bool) (uid : String) (bbox : ℚ × ℚ × ℚ × ℚ)
    (pageW pageH : ℚ) (hW : 0 < pageW) (hH : 0 < pageH) :
    (processLine dev uid bbox pageW pageH).1 =
      (if keepBox (normalizeBox bbox.1 bbox.2.1 bbox.2.2.1 bbox.2.2.2 pageW pageH).w
          (normalizeBox bbox.1 bbox.2.1 bbox.2.2.1 bbox.2.2.2 pageW pageH).h
          (normalizeBox bbox.1 bbox.2.1 bbox.2.2.1 bbox.2.2.2 pageW pageH).area
        then some (normalizeBox bbox.1 bbox.2.1 bbox.2.2.1 bbox.2.2.2 pageW pageH)
        else none) := by
  have h0 : ¬(pageW ≤ 0 ∨ pageH ≤ 0) := by push_neg; exact ⟨hW, hH⟩
  rw [processLine, if_neg h0]
  cases hk : keepBox (normalizeBox bbox.1 bbox.2.1 bbox.2.2.1 bbox.2.2.2 pageW pageH).w
      (normalizeBox bbox.1 bbox.2.1 bbox.2.2.1 bbox.2.2.2 pageW pageH).h
      (normalizeBox bbox.1 bbox.2.1 bbox.2.2.1 bbox.2.2.2 pageW pageH).area <;>
    simp only [hk, if_true, if_false, Bool.false_eq_true, ite_false, ite_true]

/-- C3: a line whose normalized box has w > 0 and h > 0 enters the
hit-testing index iff none of the rejection conditions holds
(h > 0.20, area > 0.25, w > 0.98 and h > 0.50, w > 0.95 and h > 0.95,
w > 0.999, h > 0.999); and bbox (0,0,999,1999) on a 1000 x 2000 page
(w = 0.999, h = 0.9995) is rejected. -/
theorem keepBox_iff_spec :
    (∀ w h area : ℚ, 0 < w → 0 < h →
      (keepBox w h area = true ↔
        ¬(h > (0.20 : ℚ) ∨ area > (0.25 : ℚ) ∨
          (w > (0.98 : ℚ) ∧ h > (0.50 : ℚ)) ∨
          (w > (0.95 : ℚ) ∧ h > (0.95 : ℚ)) ∨
          w > (0.999 : ℚ) ∨ h > (0.999 : ℚ)))) ∧
    (∀ (dev : Bool) (uid : String) (bbox : ℚ × ℚ × ℚ × ℚ) (pageW pageH : ℚ),
      0 < pageW → 0 < pageH →
      ((processLine dev uid bbox pageW pageH).1.isSome = true ↔
        keepBox (normalizeBox bbox.1 bbox.2.1 bbox.2.2.1 bbox.2.2.2 pageW pageH).w
          (normalizeBox bbox.1 bbox.2.1 bbox.2.2.1 bbox.2.2.2 pageW pageH).h
          (normalizeBox bbox.1 bbox.2.1 bbox.2.2.1 bbox.2.2.2 pageW pageH).area = true)) ∧
    ((normalizeBox 0 0 999 1999 1000 2000).w = 0.999 ∧
     (normalizeBox 0 0 999 1999 1000 2000).h = 0.9995 ∧
     keepBox (normalizeBox 0 0 999 1999 1000 2000).w
       (normalizeBox 0 0 999 1999 1000 2000).h
       (normalizeBox 0 0 999 1999 1000 2000).area = false) := by
  refine ⟨keepBox_eq_false_iff, ?_, ?_, ?_, ?_⟩
  · intro dev uid bbox pageW pageH hW hH
    rw [processLine_fst dev uid bbox pageW pageH hW hH]
    cases hk : keepBox (normalizeBox bbox.1 bbox.2.1 bbox.2.2.1 bbox.2.2.2 pageW pageH).w
        (normalizeBox bbox.1 bbox.2.1 bbox.2.2.1 bbox.2.2.2 pageW pageH).h
        (normalizeBox bbox.1 bbox.2.1 bbox.2.2.1 bbox.2.2.2 pageW pageH).area <;>
      simp
  · norm_num [normalizeBox, clamp01]
  · norm_num [normalizeBox, clamp01]
  · have hw : (normalizeBox 0 0 999 1999 1000 2000).w = 0.999 := by
      norm_num [normalizeBox, clamp01]
    have hh : (normalizeBox 0 0 999 1999 1000 2000).h = 0.9995 := by
      norm_num [normalizeBox, clamp01]
    rw [Bool.eq_false_iff]
    intro hk
    have := (keepBox_eq_false_iff _ _ _ (by rw [hw]; norm_num) (by rw [hh]; norm_num)).mp hk
    exact this (Or.inl (by rw [hh]; norm_num))

/-- C3 witness: the retained example box (100,50,300,90) on 1000 x 2000
passes every filter, via the iff at its computed w, h, area. -/
theorem keepBox_iff_spec_witness :
    (0 < (normalizeBox 100 50 300 90 1000 2000).w ∧
     0 < (normalizeBox 100 50 300 90 1000 2000).h) ∧
    keepBox (normalizeBox 100 50 300 90 1000 2000).w
      (normalizeBox 100 50 300 90 1000 2000).h
      (normalizeBox 100 50 300 90 1000 2000).area = true := by
  have hw : (normalizeBox 100 50 300 90 1000 2000).w = 0.20 := by
    norm_num [normalizeBox, clamp01]
  have hh : (normalizeBox 100 50 300 90 1000 2000).h = 0.02 := by
    norm_num [normalizeBox, clamp01]
  have ha : (normalizeBox 100 50 300 90 1000 2000).area = 0.004 := by
    norm_num [normalizeBox, clamp01]
  refine ⟨⟨by rw [hw]; norm_num, by rw [hh]; norm_num⟩, ?_⟩
  rw [keepBox_iff_spec.1 _ _ _ (by rw [hw]; norm_num) (by rw [hh]; norm_num)]
  rw [hw, hh, ha]
  norm_num

end HBC

namespace HBC

/-! ## C4: rejected lines and diagnostics -/

/-- C4 counterexample: the line with uid "0-0" and bbox (0,0,1,1) on a
1 x 1 page is rejected by the heuristic filters (its normalized box is the
whole page), yet processing it emits no diagnostic record at all, even in
development mode: the loop skips it with a bare continue. -/
theorem processLine_reject_silent_cex :
    (processLine true "0-0" (0, 0, 1, 1) 1 1).1 = none ∧
    (processLine true "0-0" (0, 0, 1, 1) 1 1).2 = [] := by
  have h0 : ¬((1 : ℚ) ≤ 0 ∨ (1 : ℚ) ≤ 0) := by norm_num
  have hk : keepBox (normalizeBox 0 0 1 1 1 1).w (normalizeBox 0 0 1 1 1 1).h
      (normalizeBox 0 0 1 1 1 1).area = false := by
    have hh : (normalizeBox 0 0 1 1 1 1).h = 1 := by
      norm_num [normalizeBox, clamp01]
    have hw : (normalizeBox 0 0 1 1 1 1).w = 1 := by
      norm_num [normalizeBox, clamp01]
    rw [keepBox, if_neg (by rw [hh, hw]; norm_num), if_pos (by rw [hh]; norm_num)]
  rw [processLine, if_neg h0]
  constructor <;> simp [hk]

/-- C4 (amended): a rejected line is dropped silently - no diagnostic record
is emitted for it (the only diagnostic the loop can emit is the
development-mode warning for a RETAINED box with h > 0.08 or area > 0.08);
the rejected line still appears in the transcript pane, which renders
getAllLinesForPage irrespective of the filters, and processing is total
(no fatal error). -/
theorem processLine_reject_no_diag_spec :
    (∀ (dev : Bool) (uid : String) (bbox : ℚ × ℚ × ℚ × ℚ) (pageW pageH : ℚ),
      (processLine dev uid bbox pageW pageH).1 = none →
      (processLine dev uid bbox pageW pageH).2 = []) ∧
    (∀ (dev : Bool) (uid : String) (bbox : ℚ × ℚ × ℚ × ℚ) (pageW pageH : ℚ) (d : Diag),
      d ∈ (processLine dev uid bbox pageW pageH).2 →
      (processLine dev uid bbox pageW pageH).1.isSome = true ∧ dev = true) ∧
    (∀ (paragraphs : List (List SrcLine)) (pIdx lIdx : ℕ)
      (par : List SrcLine) (l : SrcLine),
      paragraphs[pIdx]? = some par → par[lIdx]? = some l →
      (toString pIdx ++ "-" ++ toString lIdx, l) ∈ getAllLinesForPage paragraphs) := by
  refine ⟨?_, ?_, ?_⟩
  · intro dev uid bbox pageW pageH hnone
    rw [processLine] at hnone ⊢
    by_cases h0 : pageW ≤ 0 ∨ pageH ≤ 0
    · rw [if_pos h0]
    · rw [if_neg h0] at hnone ⊢
      cases hk : keepBox (normalizeBox bbox.1 bbox.2.1 bbox.2.2.1 bbox.2.2.2 pageW pageH).w
          (normalizeBox bbox.1 bbox.2.1 bbox.2.2.1 bbox.2.2.2 pageW pageH).h
          (normalizeBox bbox.1 bbox.2.1 bbox.2.2.1 bbox.2.2.2 pageW pageH).area
      · simp [hk]
      · simp [hk] at hnone
  · intro dev uid bbox pageW pageH d hd
    rw [processLine] at hd ⊢
    by_cases h0 : pageW ≤ 0 ∨ pageH ≤ 0
    · rw [if_pos h0] at hd
      simp at hd
    · rw [if_neg h0] at hd ⊢
      cases hk : keepBox (normalizeBox bbox.1 bbox.2.1 bbox.2.2.1 bbox.2.2.2 pageW pageH).w
          (normalizeBox bbox.1 bbox.2.1 bbox.2.2.1 bbox.2.2.2 pageW pageH).h
          (normalizeBox bbox.1 bbox.2.1 bbox.2.2.1 bbox.2.2.2 pageW pageH).area
      · simp [hk] at hd
      · simp only [hk, if_true]
        refine ⟨rfl, ?_⟩
        by_cases hdev : dev = true
        · exact hdev
        · simp [hk, hdev] at hd
  · intro paragraphs pIdx lIdx par l hp hl
    rw [getAllLinesForPage, List.mem_flatMap]
    refine ⟨(pIdx, par), ?_, ?_⟩
    · exact List.mk_mem_enum_iff_getElem?.mpr hp
    · rw [List.mem_map]
      exact ⟨(lIdx, l), List.mk_mem_enum_iff_getElem?.mpr hl, rfl⟩

/-- C4 witness for the amended claim: the concrete rejected line, silent,
still contained in the transcript of a one-paragraph page. -/
theorem processLine_reject_no_diag_spec_witness :
    (processLine true "0-0" (0, 0, 1, 1) 1 1).2 = [] ∧
    ("0-0", (⟨"text", (0, 0, 1, 1)⟩ : SrcLine)) ∈
      getAllLinesForPage [[⟨"text", (0, 0, 1, 1)⟩]] := by
  constructor
  · exact processLine_reject_no_diag_spec.1 true "0-0" (0, 0, 1, 1) 1 1
      processLine_reject_silent_cex.1
  · exact processLine_reject_no_diag_spec.2.2 [[⟨"text", (0, 0, 1, 1)⟩]] 0 0
      [⟨"text", (0, 0, 1, 1)⟩] ⟨"text", (0, 0, 1, 1)⟩ rfl rfl

end HBC

namespace HBC

/-! ## C5: suggestion sort modes -/

theorem topLe_trans (a b c : SuggestionRow) (hab : topLe a b) (hbc : topLe b c) :
    topLe a c := by
  simp only [topLe] at *
  split_ifs at * <;> simp_all <;> omega

theorem topLe_total (a b : SuggestionRow) : topLe a b || topLe b a := by
  simp only [topLe]
  split_ifs <;> simp_all <;> omega

theorem topLe_iff (a b : SuggestionRow) : topLe a b = true ↔
    (b.vote_count.getD 0 < a.vote_count.getD 0 ∨
     (a.vote_count.getD 0 = b.vote_count.getD 0 ∧ b.created_at ≤ a.created_at)) := by
  simp only [topLe]
  by_cases h : a.vote_count.getD 0 ≠ b.vote_count.getD 0
  · simp only [if_pos h, decide_eq_true_eq]
    constructor
    · exact Or.inl
    · rintro (hlt | ⟨heq, _⟩)
      · exact hlt
      · exact absurd heq h
  · push_neg at h
    simp only [if_neg (not_not_intro h), decide_eq_true_eq]
    constructor
    · exact fun ht => Or.inr ⟨h, ht⟩
    · rintro (hlt | ⟨_, ht⟩)
      · rw [h] at hlt; exact absurd hlt (lt_irrefl _)
      · exact ht

theorem newestLe_trans (a b c : SuggestionRow) (hab : newestLe a b)
    (hbc : newestLe b c) : newestLe a c := by
  simp only [newestLe, decide_eq_true_eq] at *
  omega

theorem newestLe_total (a b : SuggestionRow) : newestLe a b || newestLe b a := by
  rcases le_total b.created_at a.created_at with h | h <;> simp [newestLe, h]

unseal List.merge List.mergeSort in
/-- C5: under "top" the ranked order is vote count descending with ties
broken by newest created_at first, under "newest" it is created_at
descending ignoring votes (both stable permutations of the input); and
A (votes 3, t=600), B (votes 3, t=605), C (votes 1, t=610) rank as
[B, A, C] under "top". -/
theorem getSortedSuggestions_spec :
    (∀ arr : List SuggestionRow,
      (getSortedSuggestions .top arr).Pairwise (fun a b =>
        b.vote_count.getD 0 < a.vote_count.getD 0 ∨
        (a.vote_count.getD 0 = b.vote_count.getD 0 ∧
          b.created_at ≤ a.created_at)) ∧
      (getSortedSuggestions .top arr).Perm arr) ∧
    (∀ arr : List SuggestionRow,
      (getSortedSuggestions .newest arr).Pairwise
        (fun a b => b.created_at ≤ a.created_at) ∧
      (getSortedSuggestions .newest arr).Perm arr) ∧
    getSortedSuggestions .top
      [⟨"A", "2-5", "tA", "uA", 600, some 3⟩,
       ⟨"B", "2-5", "tB", "uB", 605, some 3⟩,
       ⟨"C", "2-5", "tC", "uC", 610, some 1⟩] =
      [⟨"B", "2-5", "tB", "uB", 605, some 3⟩,
       ⟨"A", "2-5", "tA", "uA", 600, some 3⟩,
       ⟨"C", "2-5", "tC", "uC", 610, some 1⟩] := by
  refine ⟨?_, ?_, ?_⟩
  · intro arr
    constructor
    · exact (List.sorted_mergeSort topLe_trans topLe_total arr).imp
        (fun h => (topLe_iff _ _).mp h)
    · exact List.mergeSort_perm arr topLe
  · intro arr
    constructor
    · exact (List.sorted_mergeSort newestLe_trans newestLe_total arr).imp
        (fun h => by simpa [newestLe] using h)
    · exact List.mergeSort_perm arr newestLe
  · rfl

end HBC

namespace HBC

/-! ## C6: leaderboard aggregation -/

theorem upvotesOf_bumpTotals (ts : List Total) (uid snap a : String) :
    upvotesOf (bumpTotals ts uid snap) a =
      if a = uid then upvotesOf ts a + 1 else upvotesOf ts a := by
  induction ts with
  | nil =>
    by_cases h : a = uid
    · subst h; simp [bumpTotals, upvotesOf, lookupTotal]
    · have h2 : ¬ uid = a := fun hh => h hh.symm
      simp [bumpTotals, upvotesOf, lookupTotal, h, h2]
  | cons t ts ih =>
    rw [bumpTotals]
    by_cases ht : t.user_id = uid
    · rw [if_pos ht]
      by_cases ha : a = uid
      · subst ha
        rw [if_pos rfl]
        simp [upvotesOf, lookupTotal, ht]
      · rw [if_neg ha]
        have hta : ¬ t.user_id = a := fun hh => ha (hh.symm.trans ht)
        simp [upvotesOf, lookupTotal, hta]
    · rw [if_neg ht]
      by_cases hta : t.user_id = a
      · have ha : ¬ a = uid := fun hh => ht (hta.trans hh)
        rw [if_neg ha]
        simp [upvotesOf, lookupTotal, hta]
      · simp only [upvotesOf, lookupTotal, if_neg hta]
        exact ih

theorem upvotesOf_foldl (rows : List VoteRow) :
    ∀ (ts : List Total) (a : String), a ≠ "" →
      upvotesOf (rows.foldl computeTotalsStep ts) a =
        upvotesOf ts a + countUpvotes rows a := by
  induction rows with
  | nil => intro ts a _; simp [countUpvotes]
  | cons r rows ih =>
    intro ts a ha
    rw [List.foldl_cons, ih _ a ha]
    simp only [countUpvotes, List.countP_cons]
    rw [computeTotalsStep]
    by_cases h1 : r.vote ≠ 1
    · rw [if_pos h1]
      have hp : (decide (r.vote = 1 ∧ r.author_id = a)) = false := by
        rw [decide_eq_false_iff_not]
        exact fun hv => h1 hv.1
      rw [hp]
      simp
    · rw [if_neg h1]
      push_neg at h1
      by_cases h2 : r.author_id = ""
      · rw [if_pos h2]
        have hp : (decide (r.vote = 1 ∧ r.author_id = a)) = false := by
          rw [decide_eq_false_iff_not]
          exact fun hv => ha (hv.2.symm.trans h2)
        rw [hp]
        simp
      · rw [if_neg h2, upvotesOf_bumpTotals]
        by_cases h3 : a = r.author_id
        · rw [if_pos h3]
          have hp : (decide (r.vote = 1 ∧ r.author_id = a)) = true := by
            rw [decide_eq_true_eq]
            exact ⟨h1, h3.symm⟩
          rw [hp]
          simp
          omega
        · rw [if_neg h3]
          have hp : (decide (r.vote = 1 ∧ r.author_id = a)) = false := by
            rw [decide_eq_false_iff_not]
            exact fun hv => h3 hv.2.symm
          rw [hp]
          simp

theorem computeTotals_filter_aux (rows : List VoteRow) :
    ∀ ts : List Total,
      rows.foldl computeTotalsStep ts =
        (rows.filter (fun r => decide (r.vote = 1))).foldl computeTotalsStep ts := by
  induction rows with
  | nil => intro ts; rfl
  | cons r rows ih =>
    intro ts
    by_cases h1 : r.vote = 1
    · rw [List.foldl_cons, List.filter_cons_of_pos (by simp [h1]), List.foldl_cons]
      exact ih _
    · rw [List.foldl_cons, List.filter_cons_of_neg (by simp [h1])]
      rw [computeTotalsStep, if_pos h1]
      exact ih _

end HBC

namespace HBC

theorem sortedByUpvotes (l : List Total) :
    (l.mergeSort (fun a b => decide (b.upvotes ≤ a.upvotes))).Pairwise
      (fun a b => b.upvotes ≤ a.upvotes) := by
  have htrans : ∀ a b c : Total, (decide (b.upvotes ≤ a.upvotes)) = true →
      (decide (c.upvotes ≤ b.upvotes)) = true →
      (decide (c.upvotes ≤ a.upvotes)) = true := by
    intro a b c hab hbc
    simp only [decide_eq_true_eq] at *
    omega
  have htot : ∀ a b : Total,
      ((decide (b.upvotes ≤ a.upvotes)) || (decide (a.upvotes ≤ b.upvotes))) = true := by
    intro a b
    rcases Nat.le_total b.upvotes a.upvotes with h | h <;> simp [h]
  exact (List.sorted_mergeSort htrans htot l).imp (fun h => by simpa using h)

unseal List.merge List.mergeSort in
/-- C6: the leaderboard counts exactly the vote rows with value 1, grouped
by the suggestion's author (the joined select has no voter column at all),
summed per author across all of that author's suggestions, sorted
descending by total and cut to the top 10; and an author with 3 upvotes
spread across 2 suggestions shows upvotes = 3. -/
theorem loadLeaderboard_counting_spec :
    (∀ rows : List VoteRow, (leaderboardBase rows).length ≤ 10) ∧
    (∀ rows : List VoteRow,
      (leaderboardBase rows).Pairwise (fun a b => b.upvotes ≤ a.upvotes)) ∧
    (∀ (rows : List VoteRow) (a : String), a ≠ "" →
      upvotesOf (computeTotals rows) a = countUpvotes rows a) ∧
    (∀ rows : List VoteRow,
      computeTotals rows =
        computeTotals (rows.filter (fun r => decide (r.vote = 1)))) ∧
    leaderboardBase
      [⟨1, "s1", "X", some "xena"⟩, ⟨1, "s1", "X", some "xena"⟩,
       ⟨1, "s2", "X", some "xena"⟩] = [⟨"X", 3, "xena"⟩] := by
  refine ⟨?_, ?_, ?_, ?_, ?_⟩
  · intro rows
    rw [leaderboardBase]
    simp [List.length_take]
  · intro rows
    rw [leaderboardBase]
    exact List.Pairwise.sublist (List.take_sublist _ _)
      (sortedByUpvotes (computeTotals rows))
  · intro rows a ha
    rw [computeTotals, upvotesOf_foldl rows [] a ha]
    simp [upvotesOf, lookupTotal]
  · intro rows
    rw [computeTotals, computeTotals]
    exact computeTotals_filter_aux rows []
  · rfl

/-- C6 witness: the counting equation at a concrete author and vote list. -/
theorem loadLeaderboard_counting_spec_witness :
    ("X" : String) ≠ "" ∧
    upvotesOf (computeTotals
        [⟨1, "s1", "X", some "xena"⟩, ⟨0, "s1", "Y", some "y"⟩,
         ⟨1, "s2", "X", some "xena"⟩]) "X" =
      countUpvotes
        [⟨1, "s1", "X", some "xena"⟩, ⟨0, "s1", "Y", some "y"⟩,
         ⟨1, "s2", "X", some "xena"⟩] "X" :=
  ⟨by decide, loadLeaderboard_counting_spec.2.2.1 _ "X" (by decide)⟩

end HBC

namespace HBC

/-! ## C7: click behaviour of the highlight state machine -/

/-- C7 counterexample: with the box for uid "2-5" already active AND its
suggestions flag already collapsed, a click inside that box EXPANDS the
flag (the code toggles on a same-uid click), whereas the claim says the
flag is set to collapsed whenever the same uid was already active. -/
theorem onHitSvgClick_toggle_cex :
    (ViewState.mk (some .left) (some "2-5") none false (fun k => k == "2-5")
        none).activeId = some "2-5" ∧
    (ViewState.mk (some .left) (some "2-5") none false (fun k => k == "2-5")
        none).collapsedUid "2-5" = true ∧
    pickBoxAt [⟨"2-5", 0, 0, 1/2, 1/10, 1/20⟩] (min 1 (max 0 (1/4)))
      (min 1 (max 0 (1/20))) = some ⟨"2-5", 0, 0, 1/2, 1/10, 1/20⟩ ∧
    (onHitSvgClick [⟨"2-5", 0, 0, 1/2, 1/10, 1/20⟩] (fun _ => none)
        (ViewState.mk (some .left) (some "2-5") none false (fun k => k == "2-5")
          none) (1/4) (1/20)).activeId = some "2-5" ∧
    (onHitSvgClick [⟨"2-5", 0, 0, 1/2, 1/10, 1/20⟩] (fun _ => none)
        (ViewState.mk (some .left) (some "2-5") none false (fun k => k == "2-5")
          none) (1/4) (1/20)).collapsedUid "2-5" = false := by
  have hpick : pickBoxAt [⟨"2-5", 0, 0, 1/2, 1/10, 1/20⟩] (min 1 (max 0 (1/4)))
      (min 1 (max 0 (1/20))) = some ⟨"2-5", 0, 0, 1/2, 1/10, 1/20⟩ := by
    norm_num [pickBoxAt, containsPt, List.find?]
  refine ⟨rfl, by simp, hpick, ?_, ?_⟩
  · rw [onHitSvgClick, hpick]
  · rw [onHitSvgClick, hpick]
    simp

/-- C7 (amended): a click that hits a box with identifier uid sets
activeId = uid with source "left" (the page side), reveals the community
suggestions (collapseSuggestions = false), and sets the per-uid collapsed
flag to its toggle when the same uid was already active and to expanded
(false) otherwise; in particular a click in a box from a state where that
uid was not active, followed by a second click at the same point, takes
the flag from expanded to collapsed. -/
theorem onHitSvgClick_spec (hitBoxes : List HitBox)
    (boxByUid : String → Option Box4) (s : ViewState) (u v : ℚ)
    (picked : HitBox)
    (hp : pickBoxAt hitBoxes (min 1 (max 0 u)) (min 1 (max 0 v)) = some picked) :
    (onHitSvgClick hitBoxes boxByUid s u v).activeId = some picked.uid ∧
    (onHitSvgClick hitBoxes boxByUid s u v).activeSource = some .left ∧
    (onHitSvgClick hitBoxes boxByUid s u v).activeBox = boxByUid picked.uid ∧
    (onHitSvgClick hitBoxes boxByUid s u v).collapseSuggestions = false ∧
    (onHitSvgClick hitBoxes boxByUid s u v).collapsedUid picked.uid =
      (if s.activeId = some picked.uid then !(s.collapsedUid picked.uid)
       else false) ∧
    (s.activeId ≠ some picked.uid →
      (onHitSvgClick hitBoxes boxByUid
          (onHitSvgClick hitBoxes boxByUid s u v) u v).collapsedUid picked.uid
        = true) := by
  have hstep : ∀ s' : ViewState, onHitSvgClick hitBoxes boxByUid s' u v =
      { s' with
        activeSource := some .left
        activeId := some picked.uid
        activeBox := boxByUid picked.uid
        collapseSuggestions := false
        collapsedUid := fun k =>
          if k = picked.uid then
            (if s'.activeId = some picked.uid then !(s'.collapsedUid picked.uid)
             else false)
          else s'.collapsedUid k
        openSuggestUid := none } := by
    intro s'
    rw [onHitSvgClick, hp]
  rw [hstep s, hstep]
  refine ⟨rfl, rfl, rfl, rfl, by simp, ?_⟩
  intro hne
  simp [if_neg hne]

/-- C7 witness for the amended claim: concrete double click on uid "2-5". -/
theorem onHitSvgClick_spec_witness :
    pickBoxAt [⟨"2-5", 0, 0, 1/2, 1/10, 1/20⟩] (min 1 (max 0 (1/4)))
      (min 1 (max 0 (1/20))) = some ⟨"2-5", 0, 0, 1/2, 1/10, 1/20⟩ ∧
    (ViewState.mk none none none false (fun _ => false) none).activeId ≠
      some "2-5" ∧
    (onHitSvgClick [⟨"2-5", 0, 0, 1/2, 1/10, 1/20⟩] (fun _ => none)
        (onHitSvgClick [⟨"2-5", 0, 0, 1/2, 1/10, 1/20⟩] (fun _ => none)
          (ViewState.mk none none none false (fun _ => false) none)
          (1/4) (1/20)) (1/4) (1/20)).collapsedUid "2-5" = true := by
  have hpick : pickBoxAt [⟨"2-5", 0, 0, 1/2, 1/10, 1/20⟩] (min 1 (max 0 (1/4)))
      (min 1 (max 0 (1/20))) = some ⟨"2-5", 0, 0, 1/2, 1/10, 1/20⟩ := by
    norm_num [pickBoxAt, containsPt, List.find?]
  refine ⟨hpick, by simp, ?_⟩
  exact (onHitSvgClick_spec [⟨"2-5", 0, 0, 1/2, 1/10, 1/20⟩] (fun _ => none)
    (ViewState.mk none none none false (fun _ => false) none)
    (1/4) (1/20) ⟨"2-5", 0, 0, 1/2, 1/10, 1/20⟩ hpick).2.2.2.2.2 (by simp)

end HBC

namespace HBC

/-! ## C8: page key ordering and numeric navigation -/

unseal List.merge List.mergeSort in
/-- C8 counterexample: "foo" has no recoverable page number, yet the page
sort places it BEFORE "a_page_1" (unparsable keys sort with key 0, first),
not after all keys with a recoverable number. -/
theorem sortPageKeys_unparsable_first_cex :
    pageKeyToNumber "foo" = none ∧
    pageKeyToNumber "a_page_1" = some 1 ∧
    sortPageKeys ["a_page_1", "foo"] = ["foo", "a_page_1"] := by
  refine ⟨by decide, by decide, by rfl⟩

theorem lastKeyWithNum_parses (keys : List String) (n : ℕ) :
    ∀ acc : Option String,
      (acc = none ∨ ∃ k, acc = some k ∧ pageKeyToNumber k = some n) →
      (keys.foldl (fun a k => if pageKeyToNumber k = some n then some k else a)
          acc = none ∨
        ∃ k, keys.foldl (fun a k => if pageKeyToNumber k = some n then some k
            else a) acc = some k ∧ pageKeyToNumber k = some n) := by
  induction keys with
  | nil => intro acc h; exact h
  | cons key keys ih =>
    intro acc h
    rw [List.foldl_cons]
    by_cases hk : pageKeyToNumber key = some n
    · exact ih _ (Or.inr ⟨key, by rw [if_pos hk], hk⟩)
    · rw [if_neg hk]
      exact ih _ h

theorem sortPageKeysLe_pairwise (keys : List String) :
    (sortPageKeys keys).Pairwise (fun a b => pageKeyOrd a ≤ pageKeyOrd b) := by
  have htrans : ∀ a b c : String, (decide (pageKeyOrd a ≤ pageKeyOrd b)) = true →
      (decide (pageKeyOrd b ≤ pageKeyOrd c)) = true →
      (decide (pageKeyOrd a ≤ pageKeyOrd c)) = true := by
    intro a b c hab hbc
    simp only [decide_eq_true_eq] at *
    omega
  have htot : ∀ a b : String,
      ((decide (pageKeyOrd a ≤ pageKeyOrd b)) ||
        (decide (pageKeyOrd b ≤ pageKeyOrd a))) = true := by
    intro a b
    rcases Nat.le_total (pageKeyOrd a) (pageKeyOrd b) with h | h <;> simp [h]
  exact (List.sorted_mergeSort htrans htot keys).imp (fun h => by simpa using h)

/-- C8 (amended): the page-key sort treats keys with no recoverable page
number as page 0, so they sort BEFORE every key with a recoverable number
at least 1 (not after): the output is a permutation of the input ordered
by (pageKeyToNumber k) ?? 0, and any key preceding an unparsable key has
sort key 0.  Keys with no recoverable number are excluded from the numeric
navigation map docKeyByNum (modelled by lastKeyWithNum). -/
theorem sortPageKeys_spec (keys : List String) :
    (sortPageKeys keys).Pairwise (fun a b => pageKeyOrd a ≤ pageKeyOrd b) ∧
    (sortPageKeys keys).Perm keys ∧
    (∀ (i j : ℕ) (hi : i < (sortPageKeys keys).length)
        (hj : j < (sortPageKeys keys).length), i < j →
      pageKeyToNumber ((sortPageKeys keys).get ⟨j, hj⟩) = none →
      pageKeyOrd ((sortPageKeys keys).get ⟨i, hi⟩) = 0) ∧
    (∀ k n, pageKeyToNumber k = none → lastKeyWithNum keys n ≠ some k) := by
  refine ⟨sortPageKeysLe_pairwise keys, List.mergeSort_perm keys _, ?_, ?_⟩
  · intro i j hi hj hij hnone
    have hp := sortPageKeysLe_pairwise keys
    have hle := List.pairwise_iff_getElem.mp hp i j hi hj hij
    have ha0 : pageKeyOrd ((sortPageKeys keys).get ⟨j, hj⟩) = 0 := by
      rw [pageKeyOrd, hnone]
      rfl
    simp only [List.get_eq_getElem] at *
    omega
  · intro k n hnone hsome
    rcases lastKeyWithNum_parses keys n none (Or.inl rfl) with h | ⟨k2, h2, hk2⟩
    · rw [lastKeyWithNum] at hsome
      rw [hsome] at h
      cases h
    · rw [lastKeyWithNum] at hsome
      rw [hsome] at h2
      cases h2
      rw [hnone] at hk2
      cases hk2

unseal List.merge List.mergeSort in
/-- C8 witness for the amended claim: the concrete two-key list. -/
theorem sortPageKeys_spec_witness :
    pageKeyToNumber "foo" = none ∧
    pageKeyOrd "a_page_1" = 1 ∧
    (∀ n, lastKeyWithNum ["a_page_1", "foo"] n ≠ some "foo") ∧
    sortPageKeys ["a_page_1", "foo"] = ["foo", "a_page_1"] := by
  refine ⟨by decide, by decide, ?_, by rfl⟩
  intro n
  exact (sortPageKeys_spec ["a_page_1", "foo"]).2.2.2 "foo" n (by decide)

end HBC

namespace HBC

/-! ## C9: leaderboard display-name resolution -/

theorem fallbackName_ne_empty (u : String) : fallbackName u ≠ "" := by
  intro h
  have hl : (fallbackName u).length = 0 := by rw [h]; rfl
  rw [fallbackName, String.length_append] at hl
  have h5 : ("user:" : String).length = 5 := rfl
  rw [h5] at hl
  omega

/-- C9: every leaderboard row's display name is non-empty and resolves with
the precedence: live profile username (byId lookup, non-empty entries only),
else the non-empty username snapshot carried on the row, else the
deterministic fallback "user:" + the first 8 characters of the author id;
this also holds when the profiles fetch failed (profs = none). -/
theorem loadLeaderboard_username_spec :
    (∀ (profs : Option (List (String × Option String))) (r : Total),
      (enrichRow profs r).username ≠ "" ∧
      (enrichRow profs r).username =
        (if (match profs with
             | some ps => byIdLookup ps r.user_id
             | none => "") ≠ "" then
          (match profs with
           | some ps => byIdLookup ps r.user_id
           | none => "")
         else if r.username ≠ "" then r.username
         else fallbackName r.user_id)) ∧
    (∀ (profs : Option (List (String × Option String))) (rows : List VoteRow)
        (r : Total), r ∈ loadLeaderboard profs rows → r.username ≠ "") := by
  have hmain : ∀ (profs : Option (List (String × Option String))) (r : Total),
      (enrichRow profs r).username ≠ "" ∧
      (enrichRow profs r).username =
        (if (match profs with
             | some ps => byIdLookup ps r.user_id
             | none => "") ≠ "" then
          (match profs with
           | some ps => byIdLookup ps r.user_id
           | none => "")
         else if r.username ≠ "" then r.username
         else fallbackName r.user_id) := by
    intro profs r
    cases profs with
    | none =>
      rw [enrichRow]
      by_cases hu : r.username ≠ ""
      · simp only [if_pos hu]
        exact ⟨hu, by simp [hu]⟩
      · push_neg at hu
        simp only [hu]
        simp
        exact fallbackName_ne_empty r.user_id
    | some ps =>
      rw [enrichRow]
      by_cases hl : byIdLookup ps r.user_id ≠ ""
      · simp only [if_pos hl]
        exact ⟨hl, by simp [hl]⟩
      · push_neg at hl
        simp only [hl]
        by_cases hu : r.username ≠ ""
        · simp only [if_pos hu]
          simp [hu]
        · push_neg at hu
          simp only [hu]
          simp
          exact fallbackName_ne_empty r.user_id
  refine ⟨hmain, ?_⟩
  intro profs rows r hr
  rw [loadLeaderboard] at hr
  rcases List.mem_map.mp hr with ⟨t, _, ht⟩
  rw [← ht]
  exact (hmain profs t).1

unseal List.merge List.mergeSort in
/-- C9 witness: with a failed profiles fetch and an empty snapshot, the
single leaderboard row shows the deterministic fallback name, non-empty. -/
theorem loadLeaderboard_username_spec_witness :
    (⟨"X", 1, "user:X"⟩ : Total) ∈ loadLeaderboard none [⟨1, "s1", "X", none⟩] ∧
    (⟨"X", 1, "user:X"⟩ : Total).username ≠ "" := by
  have hm : (⟨"X", 1, "user:X"⟩ : Total) ∈
      loadLeaderboard none [⟨1, "s1", "X", none⟩] := by
    have he : loadLeaderboard none [⟨1, "s1", "X", none⟩] =
        [⟨"X", 1, "user:X"⟩] := by rfl
    rw [he]
    exact List.mem_singleton.mpr rfl
  exact ⟨hm, loadLeaderboard_username_spec.2 none [⟨1, "s1", "X", none⟩] _ hm⟩

end HBC

namespace HBC

/-! ## C10: pointer move on a miss, pointer leave -/

/-- C10: a frame-evaluated pointer move whose clamped position is contained
in no indexed box leaves the whole highlight state unchanged; a move never
clears an active highlight (activeId stays some); only onHitSvgMouseLeave
resets activeSource, activeId and activeBox to none (leaving the collapse
state untouched). -/
theorem onHitSvgMouseMove_leave_spec (hitBoxes : List HitBox)
    (boxByUid : String → Option Box4) (s : ViewState) (u v : ℚ) :
    (pickBoxAt hitBoxes (min 1 (max 0 u)) (min 1 (max 0 v)) = none →
      onHitSvgMouseMove hitBoxes boxByUid s u v = s) ∧
    ((onHitSvgMouseLeave s).activeId = none ∧
     (onHitSvgMouseLeave s).activeSource = none ∧
     (onHitSvgMouseLeave s).activeBox = none ∧
     (onHitSvgMouseLeave s).collapsedUid = s.collapsedUid ∧
     (onHitSvgMouseLeave s).collapseSuggestions = s.collapseSuggestions) ∧
    (s.activeId ≠ none →
      (onHitSvgMouseMove hitBoxes boxByUid s u v).activeId ≠ none) := by
  refine ⟨?_, ⟨rfl, rfl, rfl, rfl, rfl⟩, ?_⟩
  · intro hmiss
    rw [onHitSvgMouseMove, hmiss]
  · intro hsome
    rw [onHitSvgMouseMove]
    cases hpick : pickBoxAt hitBoxes (min 1 (max 0 u)) (min 1 (max 0 v)) with
    | none => exact hsome
    | some picked =>
      show (if s.activeId = some picked.uid ∧ s.activeSource = some .left then s
        else { s with
          activeSource := some .left
          activeId := some picked.uid
          activeBox := boxByUid picked.uid }).activeId ≠ none
      by_cases hsame : s.activeId = some picked.uid ∧ s.activeSource = some .left
      · rw [if_pos hsame]
        exact hsome
      · rw [if_neg hsame]
        simp

/-- C10 witness: with an empty index every move misses and the state is
untouched; a leave from an active state resets the highlight fields. -/
theorem onHitSvgMouseMove_leave_spec_witness :
    pickBoxAt [] (min 1 (max 0 (1/4 : ℚ))) (min 1 (max 0 (1/4 : ℚ))) = none ∧
    onHitSvgMouseMove [] (fun _ => none)
      (ViewState.mk (some .left) (some "2-5") none false (fun _ => false) none)
      (1/4) (1/4) =
      ViewState.mk (some .left) (some "2-5") none false (fun _ => false) none ∧
    (onHitSvgMouseLeave
      (ViewState.mk (some .left) (some "2-5") none false (fun _ => false)
        none)).activeId = none := by
  have hmiss : pickBoxAt [] (min 1 (max 0 (1/4 : ℚ)))
      (min 1 (max 0 (1/4 : ℚ))) = none := rfl
  refine ⟨hmiss, ?_, ?_⟩
  · exact (onHitSvgMouseMove_leave_spec [] (fun _ => none)
      (ViewState.mk (some .left) (some "2-5") none false (fun _ => false) none)
      (1/4) (1/4)).1 hmiss
  · exact (onHitSvgMouseMove_leave_spec [] (fun _ => none)
      (ViewState.mk (some .left) (some "2-5") none false (fun _ => false) none)
      (1/4) (1/4)).2.1.1

end HBC
